import Mathlib

/-!
Shallow embedding of the `shop` Django application (src/shop/models.py).

Fixed-point currency values (`DecimalField(max_digits=10, decimal_places=2)`)
are represented exactly as integer numbers of cents (`Money := Int`), so
`10.00` is `1000`, `19.99` is `1999`, `69.97` is `6997`.  Multiplying a
2-decimal-place price by an integer quantity is exact, so no rounding step
occurs in the aggregation (matching the Python `Decimal * int` semantics).

The database is modelled as explicit lists of rows; Django's reverse
foreign-key relation `order.items.all()` is the filter of the `OrderItem`
rows whose `order_item` key equals the order's id.  `Model.save()` without
arguments writes the full row (update if a row with the primary key exists,
insert otherwise); `save(update_fields=["total"])` writes only the `total`
column of the rows with the matching key.
-/

namespace Shop

/-- Exact fixed-point currency amount, in cents (2 decimal places). -/
abbrev Money := Int

/-- A row of `db_product` (fields the aggregator reads). `price` is the
`DecimalField` unit price in cents. -/
structure Product where
  id : Nat
  name : String
  price : Money
  stock_quantity : Nat
  category : Nat
  deriving Repr, DecidableEq

/-- A row of `db_order_item`: a `Product` reference (resolved), the owning
order's key (`order_item` foreign key), and `product_quantity`
(a `PositiveIntegerField`). -/
structure OrderItem where
  id : Nat
  item : Product
  order_item : Nat
  product_quantity : Nat
  deriving Repr, DecidableEq

/-- `OrderItem.item_price`: `self.item.price * self.product_quantity`. -/
def OrderItem.item_price (oi : OrderItem) : Money :=
  oi.item.price * (oi.product_quantity : Int)

/-- A row of `db_order`: key, `owner` foreign key, `created_at` timestamp,
derived `total` (cents), and `status` string. -/
structure OrderRec where
  id : Nat
  owner : Nat
  created_at : Nat
  total : Money
  status : String
  deriving Repr, DecidableEq

/-- The persistent store: the `db_order` and `db_order_item` tables. -/
structure DB where
  orders : List OrderRec
  order_items : List OrderItem
  deriving Repr, DecidableEq

/-- `self.items.all()`: the `OrderItem` rows whose `order_item` foreign key
is the given order's id (Django reverse relation `related_name="items"`). -/
def DB.itemsOf (db : DB) (oid : Nat) : List OrderItem :=
  db.order_items.filter (fun i => i.order_item == oid)

/-- The aggregation inside `Order._total_price`:
`sum(item.item_price for item in self.items.all())`. -/
def recompute_total (items : List OrderItem) : Money :=
  (items.map OrderItem.item_price).sum

/-- A full-row write of an order record, as performed by the base
`Model.save()`: replace the rows holding the same primary key, or insert
the row if the key is absent. -/
def writeOrderRow (rows : List OrderRec) (o : OrderRec) : List OrderRec :=
  if rows.any (fun r => r.id == o.id) then
    rows.map (fun r => if r.id == o.id then o else r)
  else
    rows ++ [o]

/-- The write performed by `super().save(update_fields=["total"])`: set only
the `total` column of the rows whose key matches, touching nothing else. -/
def updateTotalField (rows : List OrderRec) (oid : Nat) (v : Money) : List OrderRec :=
  rows.map (fun r => if r.id == oid then { r with total := v } else r)

/-- Persistence events emitted by `Order.save`, in program order: the base
full-row save, then the single-field `total` update. -/
inductive SaveEvent where
  | baseSave (oid : Nat)
  | totalUpdate (oid : Nat) (v : Money)
  deriving Repr, DecidableEq

/-- `Order._total_price`: recompute `self.total` from the current line
items and write it back with `update_fields=["total"]`.  Returns the
updated in-memory order, the updated store, and the write event. -/
def OrderRec.total_price (db : DB) (o : OrderRec) : OrderRec × DB × SaveEvent :=
  let t := recompute_total (db.itemsOf o.id)
  ({ o with total := t },
   { db with orders := updateTotalField db.orders o.id t },
   SaveEvent.totalUpdate o.id t)

/-- `Order.save`: first the base save of the order row, then (synchronously,
immediately after) `_total_price`.  Returns the in-memory order, the store,
and the ordered trace of persistence events. -/
def OrderRec.save (db : DB) (o : OrderRec) : OrderRec × DB × List SaveEvent :=
  let db1 : DB := { db with orders := writeOrderRow db.orders o }
  let r := OrderRec.total_price db1 o
  (r.1, r.2.1, [SaveEvent.baseSave o.id, r.2.2])

/-- A row of the `Person` table (fields `Person.save` touches). -/
structure Person where
  id : Nat
  password : String
  fio : String
  email : String
  slug : String
  deriving Repr, DecidableEq

/-- The `django.core.exceptions.ValidationError` raised by `Person.save`. -/
inductive ValidationError where
  | validationError (msg : String)
  deriving Repr, DecidableEq

/-- The message of the error raised by `Person.save` on a malformed email. -/
def invalidEmailMsg : String := "Некорректный формат email"

/-- A full-row write of a person record by the base `Model.save()`:
replace the rows holding the same primary key, or insert the row. -/
def writePersonRow (rows : List Person) (p : Person) : List Person :=
  if rows.any (fun r => r.id == p.id) then
    rows.map (fun r => if r.id == p.id then p else r)
  else
    rows ++ [p]

/-- `Person.save`, with the external collaborators passed in as parameters:
`validEmail` models `django.core.validators.validate_email` (true when the
validator accepts, false when it raises) and `slugifyFn` models
`django.utils.text.slugify`.  Mirrors the source: validate the email and
raise `ValidationError("Некорректный формат email")` on failure (leaving
the store untouched); otherwise fill an empty `slug` from the slugified
email and perform the base save. -/
def Person.save (validEmail : String → Bool) (slugifyFn : String → String)
    (store : List Person) (p : Person) :
    Except ValidationError Person × List Person :=
  if validEmail p.email then
    let p1 := if p.slug = "" then { p with slug := slugifyFn p.email } else p
    (Except.ok p1, writePersonRow store p1)
  else
    (Except.error (ValidationError.validationError invalidEmailMsg), store)

/-- The `choices` declared on `Order.status`, in source order. -/
def statusChoices : List String := ["в обработке", "доставляется", "доставлено"]

/-- The `default` declared on `Order.status`. -/
def statusDefault : String := "в обработке"

/-- Whether a status value is admitted by the declared `choices` of
`Order.status` (framework choice validation is membership in the list). -/
def statusValid (s : String) : Bool := decide (s ∈ statusChoices)

/-- Validation range of the `PositiveIntegerField` declared for
`OrderItem.product_quantity`: Django's `PositiveIntegerField` accepts every
integer from 0 to 2147483647 inclusive — zero included ("must be either
positive or zero"), so the upstream data-entry constraint is
nonnegativity, not strict positivity. -/
def positiveIntegerFieldOk (v : Int) : Bool :=
  decide (0 ≤ v ∧ v ≤ 2147483647)

/-! ### Sample rows used for concrete evaluations -/

/-- A product with unit price 10.00 (1000 cents). -/
def prodA : Product := ⟨1, "чайник", 1000, 5, 1⟩

/-- A product with unit price 19.99 (1999 cents). -/
def prodB : Product := ⟨2, "лампа", 1999, 7, 1⟩

/-- A line item of order 1: product `prodA`, quantity 1. -/
def itemA : OrderItem := ⟨1, prodA, 1, 1⟩

/-- A line item of order 1: product `prodB`, quantity 3. -/
def itemB : OrderItem := ⟨2, prodB, 1, 3⟩

/-- Order row 1, stored total 10.00 (1000 cents), default status. -/
def orderA : OrderRec := ⟨1, 1, 0, 1000, statusDefault⟩

/-- A person record with a malformed email and a non-empty slug. -/
def personBad : Person := ⟨1, "pw", "Иванов", "почта", "sl"⟩

/-- A person record with a well-formed email and an empty slug. -/
def personGood : Person := ⟨2, "pw", "Петров", "a@b.com", ""⟩

/-- A concrete instance of the email-validator collaborator. -/
def emailCheck : String → Bool := fun s => s == "a@b.com"

/-- A concrete instance of the slugify collaborator. -/
def slugifySample : String → String :=
  fun s => String.map (fun c => if c == '@' || c == '.' then '-' else c) s

/-! ### Helper lemmas about the row writes -/

theorem map_self {α : Type} (f : α → α) (l : List α) (h : ∀ a ∈ l, f a = a) :
    l.map f = l := by
  induction l with
  | nil => rfl
  | cons a t ih =>
    rw [List.map_cons, h a (List.mem_cons_self a t),
      ih (fun x hx => h x (List.mem_cons_of_mem a hx))]

theorem set_total_self (r : OrderRec) (v : Money) (h : r.total = v) :
    { r with total := v } = r := by
  cases r
  cases h
  rfl

theorem writeOrderRow_hasKey (rows : List OrderRec) (o : OrderRec) :
    ∃ r ∈ writeOrderRow rows o, r.id = o.id := by
  unfold writeOrderRow
  by_cases h : rows.any (fun r => r.id == o.id) = true
  · rw [if_pos h]
    obtain ⟨r, hr, hid⟩ := List.any_eq_true.mp h
    exact ⟨o, List.mem_map.mpr ⟨r, hr, by simp_all⟩, rfl⟩
  · rw [if_neg h]
    exact ⟨o, by simp, rfl⟩

theorem writeOrderRow_keyRows (rows : List OrderRec) (o : OrderRec) :
    ∀ r ∈ writeOrderRow rows o, r.id = o.id → r = o := by
  intro r hr hid
  unfold writeOrderRow at hr
  split at hr
  · obtain ⟨x, hx, hxo⟩ := List.mem_map.mp hr
    by_cases hc : x.id = o.id
    · simpa [hc] using hxo.symm
    · rw [if_neg (by simpa using hc)] at hxo
      exact absurd (hxo ▸ hid) hc
  · rcases List.mem_append.mp hr with hmem | hmem
    · rename_i hany
      have hfalse : (rows.any fun r => r.id == o.id) = false := by
        cases hb : rows.any fun r => r.id == o.id
        · rfl
        · exact absurd hb hany
      have := List.any_eq_false.mp hfalse r hmem
      simp_all
    · simpa using hmem

theorem updateTotalField_mem (rows : List OrderRec) (oid : Nat) (v : Money) :
    ∀ r ∈ updateTotalField rows oid v,
      ∃ x ∈ rows, r = if x.id = oid then { x with total := v } else x := by
  intro r hr
  obtain ⟨x, hx, hxr⟩ := List.mem_map.mp hr
  refine ⟨x, hx, ?_⟩
  by_cases hc : x.id = oid <;> simp [hc] at hxr ⊢ <;> exact hxr.symm

theorem updateTotalField_total (rows : List OrderRec) (oid : Nat) (v : Money) :
    ∀ r ∈ updateTotalField rows oid v, r.id = oid → r.total = v := by
  intro r hr hid
  obtain ⟨x, hx, hxeq⟩ := updateTotalField_mem rows oid v r hr
  by_cases hc : x.id = oid
  · rw [if_pos hc] at hxeq
    rw [hxeq]
  · rw [if_neg hc] at hxeq
    exact absurd (hxeq ▸ hid) hc

theorem updateTotalField_keyRows (rows : List OrderRec) (oid : Nat)
    (v : Money) (o : OrderRec) (hk : ∀ r ∈ rows, r.id = oid → r = o) :
    ∀ r ∈ updateTotalField rows oid v, r.id = oid → r = { o with total := v } := by
  intro r hr hid
  obtain ⟨x, hx, hxeq⟩ := updateTotalField_mem rows oid v r hr
  by_cases hc : x.id = oid
  · rw [if_pos hc] at hxeq
    rw [hxeq, hk x hx hc]
  · rw [if_neg hc] at hxeq
    exact absurd (hxeq ▸ hid) hc

theorem updateTotalField_hasKey (rows : List OrderRec) (oid : Nat) (v : Money)
    (h : ∃ r ∈ rows, r.id = oid) :
    ∃ r ∈ updateTotalField rows oid v, r.id = oid := by
  obtain ⟨r, hr, hid⟩ := h
  exact ⟨{ r with total := v },
    List.mem_map.mpr ⟨r, hr, by simp [hid]⟩, hid⟩

theorem writeOrderRow_self (rows : List OrderRec) (o : OrderRec)
    (hk : ∃ r ∈ rows, r.id = o.id)
    (ha : ∀ r ∈ rows, r.id = o.id → r = o) :
    writeOrderRow rows o = rows := by
  unfold writeOrderRow
  obtain ⟨r0, hr0, hid0⟩ := hk
  have hany : rows.any (fun r => r.id == o.id) = true :=
    List.any_eq_true.mpr ⟨r0, hr0, by simp [hid0]⟩
  rw [if_pos hany]
  apply map_self
  intro r hr
  by_cases hc : r.id = o.id
  · rw [ha r hr hc]
    simp
  · simp [hc]

theorem updateTotalField_self (rows : List OrderRec) (oid : Nat) (v : Money)
    (ha : ∀ r ∈ rows, r.id = oid → r.total = v) :
    updateTotalField rows oid v = rows := by
  apply map_self
  intro r hr
  by_cases hc : r.id = oid
  · have hb : (r.id == oid) = true := by simp [hc]
    rw [if_pos hb]
    exact set_total_self r v (ha r hr hc)
  · simp [hc]

/-! ### Claim theorems -/

/-- C1: for every finite collection of line items of an order,
`recompute_total` returns the sum over those line items of
`unit_price * quantity` (each contributing
`item_price = product.unit_price * quantity`), and the result is the same
for any reordering (permutation) of the line items. -/
theorem recompute_total_sum_and_perm (items perm_items : List OrderItem)
    (h : items.Perm perm_items) :
    recompute_total items
      = (items.map (fun i => i.item.price * (i.product_quantity : Int))).sum
    ∧ recompute_total items = recompute_total perm_items := by
  refine ⟨rfl, ?_⟩
  exact List.Perm.sum_eq (h.map OrderItem.item_price)

/-- Witness for C1: the two concrete line items of order 1 in either
iteration order give the same total, 69.97 (6997 cents). -/
theorem recompute_total_sum_and_perm_witness :
    ([itemA, itemB].Perm [itemB, itemA])
    ∧ recompute_total [itemA, itemB] = recompute_total [itemB, itemA]
    ∧ recompute_total [itemA, itemB] = 6997 := by
  refine ⟨by decide, ?_, by decide⟩
  exact (recompute_total_sum_and_perm [itemA, itemB] [itemB, itemA] (by decide)).2

/-- C2: saving an order whose current set of line items is empty — whether
it never had items or they were all removed — computes total 0 and stores
total 0 on the order's row(s). -/
theorem order_save_empty_items (db : DB) (o : OrderRec)
    (h : db.itemsOf o.id = []) :
    (OrderRec.save db o).1.total = 0
    ∧ ∀ r ∈ (OrderRec.save db o).2.1.orders, r.id = o.id → r.total = 0 := by
  have hitems : DB.itemsOf { db with orders := writeOrderRow db.orders o } o.id
      = [] := h
  constructor
  · simp [OrderRec.save, OrderRec.total_price, hitems, recompute_total]
  · intro r hr hid
    have hr2 : r ∈ updateTotalField (writeOrderRow db.orders o) o.id 0 := by
      simpa [OrderRec.save, OrderRec.total_price, hitems, recompute_total] using hr
    exact updateTotalField_total _ _ _ r hr2 hid

/-- Witness for C2: a store holding order row 1 (stale total 10.00) and a
line item belonging to a different order; saving order 1 stores total 0. -/
theorem order_save_empty_items_witness :
    (OrderRec.save ⟨[orderA], [⟨3, prodA, 2, 1⟩]⟩ orderA).1.total = 0
    ∧ ∀ r ∈ (OrderRec.save ⟨[orderA], [⟨3, prodA, 2, 1⟩]⟩ orderA).2.1.orders,
        r.id = orderA.id → r.total = 0 :=
  order_save_empty_items ⟨[orderA], [⟨3, prodA, 2, 1⟩]⟩ orderA (by decide)

/-- C4: an order holding one line item of unit price 10.00 and quantity 1
(stored total 10.00), after a second line item of unit price 19.99 and
quantity 3 is added, recomputes on save to total 69.97 — in cents,
1000*1 + 1999*3 = 6997 — both in memory and in the stored row. -/
theorem order_save_example_6997 :
    (OrderRec.save ⟨[orderA], [itemA, itemB]⟩ orderA).1.total = 6997
    ∧ (OrderRec.save ⟨[orderA], [itemA, itemB]⟩ orderA).2.1.orders
        = [{ orderA with total := 6997 }] := by
  decide

/-- C6: within every `Order.save` invocation the persistence trace is
exactly the base full-row save followed by the `total` recomputation
write, computed synchronously against the store as it stands after the
base save — so the base save always precedes the recomputation. -/
theorem order_save_sequence (db : DB) (o : OrderRec) :
    (OrderRec.save db o).2.2
      = [SaveEvent.baseSave o.id,
         SaveEvent.totalUpdate o.id
           (recompute_total
             (DB.itemsOf { db with orders := writeOrderRow db.orders o } o.id))] :=
  rfl

/-- C3: `Order.save` (base save plus total recomputation) is idempotent:
saving the saved order again against the resulting store returns the same
in-memory order, leaves the stored rows exactly as they were, and emits
the identical write trace — the same total both times, the same write,
and the stored total unchanged by the second invocation. -/
theorem order_save_idempotent (db : DB) (o : OrderRec) :
    OrderRec.save (OrderRec.save db o).2.1 (OrderRec.save db o).1
      = OrderRec.save db o := by
  obtain ⟨rows0, items0⟩ := db
  set t := recompute_total (DB.itemsOf ⟨rows0, items0⟩ o.id) with ht
  set rows1 := updateTotalField (writeOrderRow rows0 o) o.id t with hrows1
  set o1 : OrderRec := { o with total := t } with ho1
  have hkey : ∃ r ∈ rows1, r.id = o.id :=
    updateTotalField_hasKey _ _ _ (writeOrderRow_hasKey rows0 o)
  have hall : ∀ r ∈ rows1, r.id = o.id → r = o1 :=
    updateTotalField_keyRows _ _ _ o (writeOrderRow_keyRows rows0 o)
  have hwrite : writeOrderRow rows1 o1 = rows1 :=
    writeOrderRow_self rows1 o1 hkey hall
  have hupd : updateTotalField rows1 o.id t = rows1 := by
    apply updateTotalField_self
    intro r hr hid
    rw [hall r hr hid]
  have hsame : ({ o1 with total := t } : OrderRec) = o1 :=
    set_total_self o1 t (by rw [ho1])
  show OrderRec.save ⟨rows1, items0⟩ o1
      = (o1, (⟨rows1, items0⟩ : DB),
         [SaveEvent.baseSave o.id, SaveEvent.totalUpdate o.id t])
  show ({ o1 with total := t }, (⟨updateTotalField (writeOrderRow rows1 o1) o.id t,
      items0⟩ : DB), [SaveEvent.baseSave o.id, SaveEvent.totalUpdate o.id t])
      = (o1, (⟨rows1, items0⟩ : DB),
         [SaveEvent.baseSave o.id, SaveEvent.totalUpdate o.id t])
  rw [hsame, hwrite, hupd]

/-- C5: the persistence write of the recomputation (`_total_price`, i.e.
`save(update_fields=["total"])`) is a partial update of the single field
`total`: the order-items table is untouched, the orders table is written
through `updateTotalField`, and that write keeps every row position,
leaves every row whose key differs from the order's untouched, and on the
matching row changes nothing but `total`. -/
theorem total_price_partial_update (db : DB) (o : OrderRec) :
    (OrderRec.total_price db o).2.1.order_items = db.order_items
    ∧ (OrderRec.total_price db o).2.1.orders
        = updateTotalField db.orders o.id (recompute_total (db.itemsOf o.id))
    ∧ ∀ (rows : List OrderRec) (oid : Nat) (v : Money),
        (updateTotalField rows oid v).length = rows.length
        ∧ ∀ (i : Nat) (h1 : i < rows.length)
            (h2 : i < (updateTotalField rows oid v).length),
            ((rows.get ⟨i, h1⟩).id ≠ oid →
              (updateTotalField rows oid v).get ⟨i, h2⟩ = rows.get ⟨i, h1⟩)
            ∧ ((rows.get ⟨i, h1⟩).id = oid →
              (updateTotalField rows oid v).get ⟨i, h2⟩
                = { rows.get ⟨i, h1⟩ with total := v }) := by
  refine ⟨rfl, rfl, ?_⟩
  intro rows oid v
  refine ⟨by simp [updateTotalField], ?_⟩
  intro i h1 h2
  constructor
  · intro hne
    simp only [List.get_eq_getElem] at hne
    simp [updateTotalField, List.get_eq_getElem, List.getElem_map, hne]
  · intro heq
    simp only [List.get_eq_getElem] at heq
    simp [updateTotalField, List.get_eq_getElem, List.getElem_map, heq]

/-- Witness for C5: on a two-row store, updating the total of order 2
leaves row `orderA` (key 1) unchanged and rewrites only the total of the
key-2 row. -/
theorem total_price_partial_update_witness :
    (updateTotalField [orderA, ⟨2, 9, 4, 500, "доставляется"⟩] 2 700).get
        ⟨0, by decide⟩ = orderA
    ∧ (updateTotalField [orderA, ⟨2, 9, 4, 500, "доставляется"⟩] 2 700).get
        ⟨1, by decide⟩ = ⟨2, 9, 4, 700, "доставляется"⟩ := by
  have h := (total_price_partial_update ⟨[orderA], []⟩ orderA).2.2
    [orderA, ⟨2, 9, 4, 500, "доставляется"⟩] 2 700
  exact ⟨(h.2 0 (by decide) (by decide)).1 (by decide),
    (h.2 1 (by decide) (by decide)).2 (by decide)⟩

/-- C7 counterexample: quantity 0 is accepted by the upstream
`PositiveIntegerField` validation (Django's range is 0..2147483647,
zero included), yet 0 is not strictly positive; the aggregator still
performs no validation and simply sums such an item as contributing 0. -/
theorem quantity_zero_accepted :
    positiveIntegerFieldOk 0 = true
    ∧ ¬ ((0 : Int) > 0)
    ∧ recompute_total [{ itemA with product_quantity := 0 }] = 0 := by
  decide

/-- C7 amended: the upstream `PositiveIntegerField` constraint admits
exactly the nonnegative integers up to 2147483647 (so persisted
quantities are nonnegative, not necessarily strictly positive), and the
aggregator itself performs no validation of quantity: on every item list
it is the plain sum of the item prices. -/
theorem quantity_nonneg (v : Int) (h : positiveIntegerFieldOk v = true) :
    0 ≤ v ∧ v ≤ 2147483647
    ∧ ∀ items : List OrderItem,
        recompute_total items = (items.map OrderItem.item_price).sum := by
  simp only [positiveIntegerFieldOk, decide_eq_true_eq] at h
  exact ⟨h.1, h.2, fun _ => rfl⟩

/-- Witness for C7 amended: quantity 3 passes the field validation and is
nonnegative. -/
theorem quantity_nonneg_witness :
    (0 : Int) ≤ 3 ∧ (3 : Int) ≤ 2147483647 :=
  ⟨(quantity_nonneg 3 (by decide)).1, (quantity_nonneg 3 (by decide)).2.1⟩

/-- C8: `Person.save` rejects a malformed email before reaching storage —
whenever the email validator refuses, it raises
`ValidationError("Некорректный формат email")` and returns the store
unchanged — and whenever the validator accepts, the save proceeds,
returning a saved person and writing its row. -/
theorem person_save_email_validation (validEmail : String → Bool)
    (slugifyFn : String → String) (store : List Person) (p : Person) :
    (validEmail p.email = false →
      Person.save validEmail slugifyFn store p
        = (Except.error (ValidationError.validationError invalidEmailMsg), store))
    ∧ (validEmail p.email = true →
      ∃ q, Person.save validEmail slugifyFn store p
        = (Except.ok q, writePersonRow store q)) := by
  constructor
  · intro h
    simp [Person.save, h]
  · intro h
    exact ⟨if p.slug = "" then { p with slug := slugifyFn p.email } else p,
      by simp [Person.save, h]⟩

/-- Witness for C8: with a concrete validator, the malformed-email person
raises and leaves the empty store unchanged, and the well-formed one
saves. -/
theorem person_save_email_validation_witness :
    Person.save emailCheck slugifySample [] personBad
      = (Except.error (ValidationError.validationError invalidEmailMsg), [])
    ∧ ∃ q, Person.save emailCheck slugifySample [] personGood
        = (Except.ok q, writePersonRow [] q) :=
  ⟨(person_save_email_validation emailCheck slugifySample [] personBad).1
      (by decide),
   (person_save_email_validation emailCheck slugifySample [] personGood).2
      (by decide)⟩

/-- C9 counterexample: the status that the code assigns to every new order
(the declared default, "в обработке") is admitted by the declared
`choices`, yet it is not one of "processing", "shipping", "delivered" —
the declared enumeration consists of the Russian strings, not the English
ones. -/
theorem status_default_not_english :
    statusValid statusDefault = true
    ∧ statusDefault ∉ (["processing", "shipping", "delivered"] : List String) := by
  decide

/-- C9 amended: the `choices` declared on `Order.status` form a fixed
three-element enumeration, and a status value is admitted by it exactly
when it is one of "в обработке", "доставляется", "доставлено" (the
Russian forms of processing / shipping / delivered), with the default
"в обработке" among them. -/
theorem status_enumeration (s : String) :
    statusChoices.length = 3
    ∧ statusValid statusDefault = true
    ∧ (statusValid s = true
        ↔ (s = "в обработке" ∨ s = "доставляется" ∨ s = "доставлено")) := by
  refine ⟨rfl, by decide, ?_⟩
  simp [statusValid, statusChoices]

/-- C10: when the email validator accepts, `Person.save` persists the
record with the slug filled from the slugified email exactly when the
incoming slug was empty, and left untouched when it was already
non-empty. -/
theorem person_save_slug (validEmail : String → Bool)
    (slugifyFn : String → String) (store : List Person) (p : Person)
    (h : validEmail p.email = true) :
    Person.save validEmail slugifyFn store p
      = (Except.ok
          (if p.slug = "" then { p with slug := slugifyFn p.email } else p),
         writePersonRow store
          (if p.slug = "" then { p with slug := slugifyFn p.email } else p)) := by
  simp [Person.save, h]

/-- Witness for C10: saving the empty-slug person fills the slug from the
slugified email. -/
theorem person_save_slug_witness :
    Person.save emailCheck slugifySample [] personGood
      = (Except.ok
          (if personGood.slug = ""
            then { personGood with slug := slugifySample personGood.email }
            else personGood),
         writePersonRow []
          (if personGood.slug = ""
            then { personGood with slug := slugifySample personGood.email }
            else personGood)) :=
  person_save_slug emailCheck slugifySample [] personGood (by decide)

end Shop
